import Mathlib

/- Shallow embedding of src/z_mesh.py (MeshZApp): the chunked file transfer
protocol state and its handlers. Byte strings are lists of Nat below 256, wire
text is List Char, the Python dict receive_buffer is an update-in-place
association list, and integers parsed from the wire are Int. External effects
(radio sends, log lines, progress updates, bytes committed to the output file)
are recorded in an Output list. File reads are abstracted as reliable: a
selected file is its basename plus its contents. -/

def CHUNK_SIZE : Nat := 120

def MAX_RETRIES : Nat := 5

def TIMEOUT_SECONDS : Nat := 30

def pipe : Char := '|'

/- Decimal digit character, as Python str(int) renders digits. -/
def digitChar (d : Nat) : Char := Char.ofNat (48 + d)

/- Decimal rendering of a Nat, most significant digit first; the fuel argument
only drives structural recursion and natChars supplies enough of it. -/
def natCharsFuel : Nat → Nat → List Char
  | 0, _ => []
  | fuel + 1, n =>
    if n < 10 then [digitChar n] else natCharsFuel fuel (n / 10) ++ [digitChar (n % 10)]

def natChars (n : Nat) : List Char := natCharsFuel (n + 1) n

/- Python str() of an int, sign included. -/
def intChars (n : Int) : List Char :=
  if n < 0 then '-' :: natChars (-n).toNat else natChars n.toNat

def digitVal (c : Char) : Option Nat :=
  if '0' ≤ c ∧ c ≤ '9' then some (c.toNat - 48) else none

def digitsValGo (acc : Nat) : List Char → Option Nat
  | [] => some acc
  | c :: cs =>
    match digitVal c with
    | none => none
    | some d => digitsValGo (acc * 10 + d) cs

def digitsVal (cs : List Char) : Option Nat := if cs = [] then none else digitsValGo 0 cs

/- Model of the Python int() constructor on a string: an optional sign followed
by decimal digits (surrounding whitespace and underscore separators are not
modelled; no claim exercises them). none models a ValueError. -/
def pyInt (s : List Char) : Option Int :=
  match s with
  | [] => none
  | c :: rest =>
    if c = '-' then (digitsVal rest).map (fun n => -(n : Int))
    else if c = '+' then (digitsVal rest).map (fun n => (n : Int))
    else (digitsVal (c :: rest)).map (fun n => (n : Int))

/- Python str.split with a one-character separator. -/
def splitChar (sep : Char) : List Char → List (List Char)
  | [] => [[]]
  | c :: rest =>
    match splitChar sep rest with
    | [] => [[]]
    | g :: gs => if c = sep then [] :: g :: gs else (c :: g) :: gs

/- Python str.startswith; the first argument is the pattern. -/
def startsWithL : List Char → List Char → Bool
  | [], _ => true
  | _ :: _, [] => false
  | p :: ps, c :: cs => p == c && startsWithL ps cs

/- Standard base64 alphabet, as used by Python base64.b64encode. -/
def b64Char (n : Nat) : Char :=
  if n < 26 then Char.ofNat (65 + n)
  else if n < 52 then Char.ofNat (97 + (n - 26))
  else if n < 62 then Char.ofNat (48 + (n - 52))
  else if n = 62 then '+' else '/'

def b64CharVal (c : Char) : Option Nat :=
  if 'A' ≤ c ∧ c ≤ 'Z' then some (c.toNat - 65)
  else if 'a' ≤ c ∧ c ≤ 'z' then some (c.toNat - 97 + 26)
  else if '0' ≤ c ∧ c ≤ '9' then some (c.toNat - 48 + 52)
  else if c = '+' then some 62
  else if c = '/' then some 63
  else none

/- base64.b64encode of a byte string, already decoded back to text. -/
def b64EncodeGroups : List Nat → List Char
  | [] => []
  | [a] => [b64Char (a / 4), b64Char (a % 4 * 16), '=', '=']
  | [a, b] => [b64Char (a / 4), b64Char (a % 4 * 16 + b / 16), b64Char (b % 16 * 4), '=']
  | a :: b :: c :: rest =>
    b64Char (a / 4) :: b64Char (a % 4 * 16 + b / 16) :: b64Char (b % 16 * 4 + c / 64) ::
      b64Char (c % 64) :: b64EncodeGroups rest

/- Model of base64.b64decode on canonical base64 text; Python additionally
discards characters outside the alphabet before decoding, which no claim
exercises. none models the binascii error raised on malformed input. -/
def b64DecodeGroups : List Char → Option (List Nat)
  | [] => some []
  | c1 :: c2 :: c3 :: c4 :: rest =>
    if rest = [] ∧ c3 = '=' ∧ c4 = '=' then
      match b64CharVal c1, b64CharVal c2 with
      | some v1, some v2 => some [v1 * 4 + v2 / 16]
      | _, _ => none
    else if rest = [] ∧ c4 = '=' then
      match b64CharVal c1, b64CharVal c2, b64CharVal c3 with
      | some v1, some v2, some v3 => some [v1 * 4 + v2 / 16, v2 % 16 * 16 + v3 / 4]
      | _, _, _ => none
    else
      match b64CharVal c1, b64CharVal c2, b64CharVal c3, b64CharVal c4, b64DecodeGroups rest with
      | some v1, some v2, some v3, some v4, some tail =>
        some ((v1 * 4 + v2 / 16) :: (v2 % 16 * 16 + v3 / 4) :: (v3 % 4 * 64 + v4) :: tail)
      | _, _, _, _, _ => none
  | _ => none

/- The Python dict receive_buffer, with int keys and byte string values, as an
update-in-place association list. -/
def dictGet (k : Int) : List (Int × List Nat) → Option (List Nat)
  | [] => none
  | (k1, v) :: rest => if k1 = k then some v else dictGet k rest

def dictInsert (k : Int) (v : List Nat) : List (Int × List Nat) → List (Int × List Nat)
  | [] => [(k, v)]
  | (k1, v1) :: rest => if k1 = k then (k, v) :: rest else (k1, v1) :: dictInsert k v rest

def dictLen (buf : List (Int × List Nat)) : Nat := buf.length

/- The file slice read by send_next_chunk: seek((index - 1) * CHUNK_SIZE) then
read(CHUNK_SIZE); reading past the end yields the empty byte string. -/
def chunkOf (content : List Nat) (index : Nat) : List Nat :=
  (content.drop ((index - 1) * CHUNK_SIZE)).take CHUNK_SIZE

/- total_chunks as computed by handle_send_request: filesize // CHUNK_SIZE + 1. -/
def total_chunks_calc (filesize : Nat) : Nat := filesize / CHUNK_SIZE + 1

def reqChars : List Char := ['M', 'E', 'S', 'H', 'Z', '_', 'R', 'E', 'Q']

def ackChars : List Char := ['M', 'E', 'S', 'H', 'Z', '_', 'A', 'C', 'K']

def zdTag : List Char := ['Z', 'D', '|']

def goContTag : List Char := ['M', 'E', 'S', 'H', 'Z', '_', 'G', 'O', 'C', 'O', 'N', 'T', '|']

/- The DataChunk wire line built by send_next_chunk. -/
def zdMsg (content : List Nat) (index : Nat) : List Char :=
  zdTag ++ natChars index ++ pipe :: b64EncodeGroups (chunkOf content index)

/- The ChunkAck wire line built in the ZD branch of on_packet_received. -/
def goContMsg (n : Int) : List Char := goContTag ++ intChars n

/- The Request wire line built by handle_send_request. -/
def reqMsg (name : List Char) (size total : Nat) : List Char :=
  reqChars ++ pipe :: name ++ pipe :: natChars size ++ pipe :: natChars total

/- Generic wire line shapes, used to state parsing facts. -/
def zdLine (iStr pStr : List Char) : List Char := zdTag ++ iStr ++ pipe :: pStr

def reqLine (fname szStr totStr : List Char) : List Char :=
  reqChars ++ pipe :: fname ++ pipe :: szStr ++ pipe :: totStr

def goContLine (aStr : List Char) : List Char := goContTag ++ aStr

/- A selected source file, abstracted from a path to its basename and contents. -/
structure SelFile where
  name : List Char
  content : List Nat
deriving DecidableEq

/- The transfer related fields of the MeshZApp object. -/
structure AppState where
  target_node_id : Option (List Char)
  selected_file : Option SelFile
  current_chunk : Nat
  total_chunks : Nat
  transfer_active : Bool
  last_ack_time : Nat
  retry_count : Nat
  receiving_file_name : Option (List Char)
  receiving_total_chunks : Int
  receive_buffer : List (Int × List Nat)
deriving DecidableEq

/- Observable effects of the handlers. -/
inductive Output where
  | sendText (msg : List Char) (dest : Option (List Char))
  | logReq
  | logPacketError
  | logRetry (chunk : Nat) (attempt : Nat)
  | logFailed
  | logComplete
  | logSaved
  | logSaveError
  | logChunkError
  | logSending
  | logMissing
  | fileWrite (path : List Char) (content : List Nat)
  | progress (cur : Int) (tot : Int)
  | hideProgress
deriving DecidableEq

/- Output file name: meshz_ prefixed to the declared name; the fixed Downloads
directory is abstracted away, and None formats as the text None as in Python. -/
def savePathChars : Option (List Char) → List Char
  | none => ['m', 'e', 's', 'h', 'z', '_', 'N', 'o', 'n', 'e']
  | some n => ['m', 'e', 's', 'h', 'z', '_'] ++ n

/- The write loop of save_received_file: for i in range(1, total + 1) write
buffer[i]. A missing key raises KeyError, so the bytes already written stay in
the file and the second component reports false. -/
def writeFrom (buf : List (Int × List Nat)) (i : Int) : Nat → List Nat × Bool
  | 0 => ([], true)
  | count + 1 =>
    match dictGet i buf with
    | none => ([], false)
    | some bs =>
      let r := writeFrom buf (i + 1) count
      (bs ++ r.1, r.2)

def save_received_file (st : AppState) : List Output :=
  let r := writeFrom st.receive_buffer 1 st.receiving_total_chunks.toNat
  if r.2 then [Output.fileWrite (savePathChars st.receiving_file_name) r.1, Output.logSaved]
  else [Output.fileWrite (savePathChars st.receiving_file_name) r.1, Output.logSaveError]

/- send_next_chunk; the except path (unreadable file) fires in the model only
when no file is selected, since reads of a selected file are reliable here. -/
def send_next_chunk (st : AppState) : AppState × List Output :=
  match st.selected_file with
  | none => ({ st with transfer_active := false }, [Output.logChunkError])
  | some f => (st, [Output.sendText (zdMsg f.content st.current_chunk) st.target_node_id])

/- The TEXT_MESSAGE_APP handler on_packet_received, given the decoded text and
the sending peer. A Python exception escaping a statement is caught by the
surrounding try and logged as a Packet Error, keeping fields already assigned. -/
def on_packet_received (st : AppState) (now : Nat) (sender : List Char) (msg : List Char) :
    AppState × List Output :=
  if startsWithL reqChars msg then
    let parts := splitChar pipe msg
    match parts.get? 1 with
    | none => (st, [Output.logPacketError])
    | some fname =>
      let st1 := { st with receiving_file_name := some fname }
      match (parts.get? 3).bind pyInt with
      | none => (st1, [Output.logPacketError])
      | some total =>
        let st2 := { st1 with receiving_total_chunks := total, receive_buffer := [] }
        (st2, [Output.logReq, Output.progress 0 total, Output.sendText ackChars (some sender)])
  else if startsWithL zdTag msg then
    let parts := splitChar pipe msg
    match (parts.get? 1).bind pyInt with
    | none => (st, [Output.logPacketError])
    | some cnum =>
      match (parts.get? 2).bind b64DecodeGroups with
      | none => (st, [Output.logPacketError])
      | some cdata =>
        let buf := dictInsert cnum cdata st.receive_buffer
        let st1 := { st with receive_buffer := buf }
        let sends := [Output.progress (dictLen buf : Int) st.receiving_total_chunks,
          Output.sendText (goContMsg cnum) (some sender)]
        if (dictLen buf : Int) = st.receiving_total_chunks then
          (st1, sends ++ save_received_file st1 ++ [Output.hideProgress])
        else (st1, sends)
  else if msg = ackChars then
    if st.transfer_active = true ∧ st.target_node_id = some sender then
      let st1 := { st with current_chunk := 1, last_ack_time := now, retry_count := 0 }
      let r := send_next_chunk st1
      (r.1, Output.progress 1 (st.total_chunks : Int) :: r.2)
    else (st, [])
  else if startsWithL goContTag msg then
    if st.transfer_active = true ∧ st.target_node_id = some sender then
      match ((splitChar pipe msg).get? 1).bind pyInt with
      | none => (st, [Output.logPacketError])
      | some acknum =>
        if acknum = (st.current_chunk : Int) then
          let st1 :=
            { st with last_ack_time := now, retry_count := 0,
                      current_chunk := st.current_chunk + 1 }
          if st1.current_chunk ≤ st1.total_chunks then
            let r := send_next_chunk st1
            (r.1, Output.progress (st1.current_chunk : Int) (st1.total_chunks : Int) :: r.2)
          else ({ st1 with transfer_active := false }, [Output.logComplete, Output.hideProgress])
        else (st, [])
    else (st, [])
  else (st, [])

def handle_send_request (st : AppState) (now : Nat) : AppState × List Output :=
  match st.target_node_id, st.selected_file with
  | some target, some f =>
    let total := total_chunks_calc f.content.length
    let st1 :=
      { st with total_chunks := total, current_chunk := 0, transfer_active := true,
                last_ack_time := now }
    (st1, [Output.progress 0 (total : Int),
      Output.sendText (reqMsg f.name f.content.length total) (some target), Output.logSending])
  | _, _ => (st, [Output.logMissing])

def handle_timeout (st : AppState) : AppState × List Output :=
  if st.retry_count < MAX_RETRIES then
    let st1 := { st with retry_count := st.retry_count + 1 }
    let r := send_next_chunk st1
    (r.1, Output.logRetry st1.current_chunk st1.retry_count :: r.2)
  else ({ st with transfer_active := false }, [Output.logFailed, Output.hideProgress])

/- One iteration of the watch_loop body in start_watchdog, at wall time now. -/
def watchdog_tick (st : AppState) (now : Nat) : AppState × List Output :=
  if st.transfer_active = true ∧ 0 < st.current_chunk ∧ TIMEOUT_SECONDS < now - st.last_ack_time
  then handle_timeout st
  else (st, [])

/- Deliver a sequence of inbound text frames from one peer, state only. -/
def deliverSeq (now : Nat) (sender : List Char) : AppState → List (List Char) → AppState
  | st, [] => st
  | st, m :: ms => deliverSeq now sender (on_packet_received st now sender m).1 ms

/- The receive_buffer obtained by storing the sender chunks listed in order. -/
def foldBuf (content : List Nat) (order : List Nat) (buf : List (Int × List Nat)) :
    List (Int × List Nat) :=
  order.foldl (fun b j => dictInsert (Int.ofNat j) (chunkOf content j) b) buf

/- k consecutive timeout expiries, state only. -/
def timeoutIter : Nat → AppState → AppState
  | 0, st => st
  | k + 1, st => timeoutIter k (handle_timeout st).1

/- k watchdog wakeups one second apart, the first at wall time t. -/
def tickRun : Nat → AppState → Nat → AppState
  | 0, st, _ => st
  | k + 1, st, t => tickRun k (watchdog_tick st t).1 (t + 1)

/- Concrete states used by witnesses and counterexamples. -/

def stIdle : AppState :=
  { target_node_id := none, selected_file := none, current_chunk := 0, total_chunks := 0,
    transfer_active := false, last_ack_time := 0, retry_count := 0, receiving_file_name := none,
    receiving_total_chunks := 0, receive_buffer := [] }

def stC2w : AppState :=
  { stIdle with receiving_file_name := some ['h'], receiving_total_chunks := 2 }

def stC1file : SelFile := ⟨['a'], List.replicate 120 0⟩

def stC1 : AppState :=
  { stIdle with target_node_id := some ['!', 'a'], selected_file := some stC1file }

def stSending : AppState :=
  { stIdle with
    target_node_id := some ['!', 'a'], selected_file := some ⟨['f'], [9, 8, 7]⟩,
    current_chunk := 3, total_chunks := 3, transfer_active := true, last_ack_time := 100,
    retry_count := 2 }

def stC4 : AppState := { stSending with current_chunk := 2, retry_count := 0 }

def stC5 : AppState := { stIdle with receiving_file_name := some ['o', 'l', 'd'] }

def stC6 : AppState :=
  { stIdle with receiving_file_name := some ['g'], receiving_total_chunks := 2 }

def stC7 : AppState :=
  { stIdle with receiving_file_name := some ['h'], receiving_total_chunks := 1 }

-- MORE-STATES-HERE

/- Facts about decimal rendering and parsing. -/

theorem digitVal_digitChar : ∀ d, d < 10 → digitVal (digitChar d) = some d := by decide

theorem digitChar_ne_pipe : ∀ d, d < 10 → digitChar d ≠ pipe := by decide

theorem digitChar_ne_minus : ∀ d, d < 10 → digitChar d ≠ '-' := by decide

theorem digitChar_ne_plus : ∀ d, d < 10 → digitChar d ≠ '+' := by decide

theorem digitsValGo_append (acc : Nat) (xs ys : List Char) :
    digitsValGo acc (xs ++ ys) =
      match digitsValGo acc xs with
      | none => none
      | some a => digitsValGo a ys := by
  induction xs generalizing acc with
  | nil => simp [digitsValGo]
  | cons c cs ih =>
    simp only [List.cons_append, digitsValGo]
    cases digitVal c with
    | none => rfl
    | some d => exact ih (acc * 10 + d)

theorem natCharsFuel_digits : ∀ fuel n c, n < fuel → c ∈ natCharsFuel fuel n →
    ∃ d, d < 10 ∧ c = digitChar d := by
  intro fuel
  induction fuel with
  | zero => intro n c h; omega
  | succ f ih =>
    intro n c _ hc
    by_cases h10 : n < 10
    · simp [natCharsFuel, h10] at hc
      exact ⟨n, h10, hc⟩
    · simp only [natCharsFuel, if_neg h10, List.mem_append, List.mem_singleton] at hc
      rcases hc with hc | hc
      · exact ih (n / 10) c (by omega) hc
      · exact ⟨n % 10, by omega, hc⟩

theorem natCharsFuel_ne_nil : ∀ fuel n, n < fuel → natCharsFuel fuel n ≠ [] := by
  intro fuel n h
  cases fuel with
  | zero => omega
  | succ f =>
    by_cases h10 : n < 10 <;> simp [natCharsFuel, h10]

theorem digitsValGo_natCharsFuel : ∀ fuel n, n < fuel →
    digitsValGo 0 (natCharsFuel fuel n) = some n := by
  intro fuel
  induction fuel with
  | zero => intro n h; omega
  | succ f ih =>
    intro n hn
    by_cases h10 : n < 10
    · simp [natCharsFuel, h10, digitsValGo, digitVal_digitChar n h10]
    · rw [natCharsFuel, if_neg h10, digitsValGo_append, ih (n / 10) (by omega)]
      have h9 : n % 10 < 10 := by omega
      simp [digitsValGo, digitVal_digitChar _ h9]
      omega

theorem natChars_digits (n : Nat) (c : Char) (hc : c ∈ natChars n) :
    ∃ d, d < 10 ∧ c = digitChar d :=
  natCharsFuel_digits (n + 1) n c (by omega) hc

theorem natChars_ne_nil (n : Nat) : natChars n ≠ [] :=
  natCharsFuel_ne_nil (n + 1) n (by omega)

theorem digitsVal_natChars (n : Nat) : digitsVal (natChars n) = some n := by
  rw [digitsVal, if_neg (natChars_ne_nil n)]
  exact digitsValGo_natCharsFuel (n + 1) n (by omega)

theorem pipe_not_mem_natChars (n : Nat) : pipe ∉ natChars n := by
  intro h
  obtain ⟨d, hd, hc⟩ := natChars_digits n pipe h
  exact digitChar_ne_pipe d hd hc.symm

theorem pyInt_natChars (n : Nat) : pyInt (natChars n) = some (n : Int) := by
  rcases h : natChars n with _ | ⟨c, rest⟩
  · exact absurd h (natChars_ne_nil n)
  · obtain ⟨d, hd, hc⟩ := natChars_digits n c (by rw [h]; exact List.mem_cons_self c rest)
    rw [pyInt]
    rw [if_neg (hc ▸ digitChar_ne_minus d hd), if_neg (hc ▸ digitChar_ne_plus d hd)]
    rw [← h, digitsVal_natChars]
    rfl

theorem intChars_ofNat (n : Nat) : intChars (Int.ofNat n) = natChars n := by
  have h : ¬ (Int.ofNat n < 0) := fun hlt => absurd (Int.ofNat_nonneg n) (Int.not_le.mpr hlt)
  rw [intChars, if_neg h]
  rfl

/- Facts about startswith and split. -/

theorem startsWithL_append (p rest : List Char) : startsWithL p (p ++ rest) = true := by
  induction p with
  | nil => rfl
  | cons c cs ih => simp [startsWithL, ih]

theorem splitChar_no_sep (sep : Char) (xs : List Char) (h : sep ∉ xs) :
    splitChar sep xs = [xs] := by
  induction xs with
  | nil => rfl
  | cons c cs ih =>
    have hc : c ≠ sep := fun hh => h (hh ▸ List.mem_cons_self c cs)
    have hcs : sep ∉ cs := fun hh => h (List.mem_cons_of_mem c hh)
    rw [splitChar, ih hcs]
    simp [hc]

theorem splitChar_ne_nil (sep : Char) (xs : List Char) : splitChar sep xs ≠ [] := by
  cases xs with
  | nil => simp [splitChar]
  | cons c cs =>
    rw [splitChar]
    rcases h : splitChar sep cs with _ | ⟨g, gs⟩
    · simp
    · by_cases hc : c = sep <;> simp [hc]

theorem splitChar_append_sep (sep : Char) (a b : List Char) (h : sep ∉ a) :
    splitChar sep (a ++ sep :: b) = a :: splitChar sep b := by
  induction a with
  | nil =>
    rw [List.nil_append, splitChar]
    rcases hb : splitChar sep b with _ | ⟨g, gs⟩
    · exact absurd hb (splitChar_ne_nil sep b)
    · simp
  | cons c cs ih =>
    have hc : c ≠ sep := fun hh => h (hh ▸ List.mem_cons_self c cs)
    have hcs : sep ∉ cs := fun hh => h (List.mem_cons_of_mem c hh)
    rw [List.cons_append, splitChar, ih hcs]
    simp [hc]

/- Facts about the base64 model. -/

theorem b64CharVal_b64Char : ∀ v, v < 64 → b64CharVal (b64Char v) = some v := by decide

theorem b64Char_ne_eqSign : ∀ v, v < 64 → b64Char v ≠ '=' := by decide

theorem b64Char_ne_pipe : ∀ v, v < 64 → b64Char v ≠ pipe := by decide

theorem b64EncodeGroups_mem : ∀ (bs : List Nat), (∀ b ∈ bs, b < 256) →
    ∀ c ∈ b64EncodeGroups bs, c = '=' ∨ ∃ v, v < 64 ∧ c = b64Char v
  | [], _, c, hc => by simp [b64EncodeGroups] at hc
  | [a], h, c, hc => by
    have ha : a < 256 := h a (by simp)
    rw [b64EncodeGroups] at hc
    simp at hc
    rcases hc with hc | hc | hc
    · exact Or.inr ⟨a / 4, by omega, hc⟩
    · exact Or.inr ⟨a % 4 * 16, by omega, hc⟩
    · exact Or.inl hc
  | [a, b], h, c, hc => by
    have ha : a < 256 := h a (by simp)
    have hb : b < 256 := h b (by simp)
    rw [b64EncodeGroups] at hc
    simp at hc
    rcases hc with hc | hc | hc | hc
    · exact Or.inr ⟨a / 4, by omega, hc⟩
    · exact Or.inr ⟨a % 4 * 16 + b / 16, by omega, hc⟩
    · exact Or.inr ⟨b % 16 * 4, by omega, hc⟩
    · exact Or.inl hc
  | a :: b :: c0 :: rest, h, c, hc => by
    have ha : a < 256 := h a (by simp)
    have hb : b < 256 := h b (by simp)
    have hc0 : c0 < 256 := h c0 (by simp)
    rw [b64EncodeGroups] at hc
    simp at hc
    rcases hc with hc | hc | hc | hc | hc
    · exact Or.inr ⟨a / 4, by omega, hc⟩
    · exact Or.inr ⟨a % 4 * 16 + b / 16, by omega, hc⟩
    · exact Or.inr ⟨b % 16 * 4 + c0 / 64, by omega, hc⟩
    · exact Or.inr ⟨c0 % 64, by omega, hc⟩
    · exact b64EncodeGroups_mem rest (fun x hx => h x (by simp [hx])) c hc

theorem pipe_not_mem_b64EncodeGroups (bs : List Nat) (h : ∀ b ∈ bs, b < 256) :
    pipe ∉ b64EncodeGroups bs := by
  intro hc
  rcases b64EncodeGroups_mem bs h pipe hc with he | ⟨v, hv, he⟩
  · exact absurd he (by decide)
  · exact b64Char_ne_pipe v hv he.symm

theorem b64_roundtrip : ∀ (bs : List Nat), (∀ b ∈ bs, b < 256) →
    b64DecodeGroups (b64EncodeGroups bs) = some bs
  | [], _ => rfl
  | [a], h => by
    have ha : a < 256 := h a (by simp)
    rw [b64EncodeGroups, b64DecodeGroups, if_pos ⟨rfl, rfl, rfl⟩,
      b64CharVal_b64Char _ (by omega : a / 4 < 64),
      b64CharVal_b64Char _ (by omega : a % 4 * 16 < 64)]
    simp only [Option.some.injEq, List.cons.injEq]
    refine ⟨by omega, trivial⟩
  | [a, b], h => by
    have ha : a < 256 := h a (by simp)
    have hb : b < 256 := h b (by simp)
    have hne1 : ¬([] = ([] : List Char) ∧ b64Char (b % 16 * 4) = '=' ∧ ('=' : Char) = '=') :=
      fun hf => b64Char_ne_eqSign _ (by omega) hf.2.1
    rw [b64EncodeGroups, b64DecodeGroups, if_neg hne1, if_pos ⟨rfl, rfl⟩,
      b64CharVal_b64Char _ (by omega : a / 4 < 64),
      b64CharVal_b64Char _ (by omega : a % 4 * 16 + b / 16 < 64),
      b64CharVal_b64Char _ (by omega : b % 16 * 4 < 64)]
    simp only [Option.some.injEq, List.cons.injEq]
    refine ⟨by omega, by omega, trivial⟩
  | a :: b :: c0 :: rest, h => by
    have ha : a < 256 := h a (by simp)
    have hb : b < 256 := h b (by simp)
    have hc : c0 < 256 := h c0 (by simp)
    have ih := b64_roundtrip rest (fun x hx => h x (by simp [hx]))
    have hne1 : ¬(b64EncodeGroups rest = [] ∧ b64Char (b % 16 * 4 + c0 / 64) = '=' ∧
        b64Char (c0 % 64) = '=') :=
      fun hf => b64Char_ne_eqSign _ (by omega) hf.2.1
    have hne2 : ¬(b64EncodeGroups rest = [] ∧ b64Char (c0 % 64) = '=') :=
      fun hf => b64Char_ne_eqSign _ (by omega) hf.2
    rw [b64EncodeGroups, b64DecodeGroups, if_neg hne1, if_neg hne2,
      b64CharVal_b64Char _ (by omega : a / 4 < 64),
      b64CharVal_b64Char _ (by omega : a % 4 * 16 + b / 16 < 64),
      b64CharVal_b64Char _ (by omega : b % 16 * 4 + c0 / 64 < 64),
      b64CharVal_b64Char _ (by omega : c0 % 64 < 64), ih]
    simp only [Option.some.injEq, List.cons.injEq]
    refine ⟨by omega, by omega, by omega, trivial⟩

/- Facts about the dict model. -/

theorem dictGet_insert_self (k : Int) (v : List Nat) (B : List (Int × List Nat)) :
    dictGet k (dictInsert k v B) = some v := by
  induction B with
  | nil => simp [dictInsert, dictGet]
  | cons p rest ih =>
    obtain ⟨k1, v1⟩ := p
    by_cases hk : k1 = k <;> simp [dictInsert, dictGet, hk, ih]

theorem dictGet_insert_ne (k1 k : Int) (v : List Nat) (B : List (Int × List Nat))
    (h : k1 ≠ k) : dictGet k1 (dictInsert k v B) = dictGet k1 B := by
  induction B with
  | nil => simp [dictInsert, dictGet, Ne.symm h]
  | cons p rest ih =>
    obtain ⟨k2, v2⟩ := p
    by_cases hk : k2 = k
    · subst hk
      simp [dictInsert, dictGet, Ne.symm h]
    · simp [dictInsert, dictGet, hk, ih]

theorem dictInsert_idem (k : Int) (v : List Nat) (B : List (Int × List Nat)) :
    dictInsert k v (dictInsert k v B) = dictInsert k v B := by
  induction B with
  | nil => simp [dictInsert]
  | cons p rest ih =>
    obtain ⟨k1, v1⟩ := p
    by_cases hk : k1 = k <;> simp [dictInsert, hk, ih]

theorem dictLen_insert_none (k : Int) (v : List Nat) (B : List (Int × List Nat))
    (h : dictGet k B = none) : dictLen (dictInsert k v B) = dictLen B + 1 := by
  induction B with
  | nil => simp [dictInsert, dictLen]
  | cons p rest ih =>
    obtain ⟨k1, v1⟩ := p
    rw [dictGet] at h
    by_cases hk : k1 = k
    · simp [hk] at h
    · rw [if_neg hk] at h
      simp [dictInsert, hk, dictLen] at ih ⊢
      exact ih h

theorem dictLen_insert_some (k : Int) (v : List Nat) (B : List (Int × List Nat))
    (h : dictGet k B ≠ none) : dictLen (dictInsert k v B) = dictLen B := by
  induction B with
  | nil => simp [dictGet] at h
  | cons p rest ih =>
    obtain ⟨k1, v1⟩ := p
    rw [dictGet] at h
    by_cases hk : k1 = k
    · simp [dictInsert, hk, dictLen]
    · rw [if_neg hk] at h
      simp [dictInsert, hk, dictLen] at ih ⊢
      exact ih h

/- Facts about chunk slicing, reassembly and the write loop. -/

theorem chunkOf_mem_lt (content : List Nat) (i : Nat) (h : ∀ b ∈ content, b < 256) :
    ∀ b ∈ chunkOf content i, b < 256 := by
  intro b hb
  exact h b (List.drop_subset _ _ (List.take_subset _ _ hb))

theorem chunkOf_succ (content : List Nat) (j : Nat) (hj : 1 ≤ j) :
    chunkOf content (j + 1) = chunkOf (content.drop CHUNK_SIZE) j := by
  rw [chunkOf, chunkOf, List.drop_drop]
  congr 2
  simp only [CHUNK_SIZE]
  omega

theorem mapChunk_shift (F : List Nat) : ∀ (n s : Nat),
    (List.range' (s + 1) n).map (chunkOf F) =
      (List.range' s n).map (fun j => chunkOf F (j + 1)) := by
  intro n
  induction n with
  | zero => intro s; rfl
  | succ n ih =>
    intro s
    rw [List.range'_succ, List.range'_succ, List.map_cons, List.map_cons, ih]

theorem joinChunks : ∀ (n : Nat) (F : List Nat), F.length ≤ n * CHUNK_SIZE →
    ((List.range' 1 n).map (chunkOf F)).flatten = F := by
  intro n
  induction n with
  | zero =>
    intro F h
    simp only [Nat.zero_mul, Nat.le_zero] at h
    rw [List.length_eq_zero.mp h]
    rfl
  | succ n ih =>
    intro F h
    rw [List.range'_succ, List.map_cons, List.flatten_cons, mapChunk_shift F n 1]
    have hcongr : (List.range' 1 n).map (fun j => chunkOf F (j + 1)) =
        (List.range' 1 n).map (chunkOf (F.drop CHUNK_SIZE)) := by
      refine List.map_congr_left ?_
      intro j hj
      exact chunkOf_succ F j (List.mem_range'_1.mp hj).1
    rw [hcongr, ih (F.drop CHUNK_SIZE) (by
      rw [List.length_drop]
      simp only [CHUNK_SIZE] at h ⊢
      omega)]
    have h1 : chunkOf F 1 = F.take CHUNK_SIZE := by
      simp [chunkOf]
    rw [h1, List.take_append_drop]

theorem writeFrom_complete : ∀ (count s : Nat) (B : List (Int × List Nat)) (F : List Nat),
    (∀ j ∈ List.range' s count, dictGet (Int.ofNat j) B = some (chunkOf F j)) →
    writeFrom B (Int.ofNat s) count = (((List.range' s count).map (chunkOf F)).flatten, true) := by
  intro count
  induction count with
  | zero => intro s B F _; simp [writeFrom]
  | succ n ih =>
    intro s B F h
    have hs : s ∈ List.range' s (n + 1) := by
      rw [List.range'_succ]
      exact List.mem_cons_self _ _
    rw [writeFrom, h s hs]
    dsimp only
    rw [show Int.ofNat s + 1 = Int.ofNat (s + 1) from by simp [Int.ofNat_succ]]
    rw [ih (s + 1) B F (fun j hj => h j (by
      rw [List.range'_succ]
      exact List.mem_cons_of_mem _ hj))]
    rw [List.range'_succ, List.map_cons, List.flatten_cons]

theorem writeFrom_missing : ∀ (c : Nat) (start : Int) (B : List (Int × List Nat)) (n : Nat),
    dictGet (start + (c : Int)) B = none → (∀ j : Nat, j < c → (dictGet (start + (j : Int)) B).isSome) →
    c < n → writeFrom B start n = ((writeFrom B start c).1, false) := by
  intro c
  induction c with
  | zero =>
    intro start B n h0 _ hn
    obtain ⟨m, rfl⟩ : ∃ m, n = m + 1 := ⟨n - 1, by omega⟩
    simp only [Nat.cast_zero, add_zero] at h0
    simp [writeFrom, h0]
  | succ c ih =>
    intro start B n h0 hpre hn
    obtain ⟨m, rfl⟩ : ∃ m, n = m + 1 := ⟨n - 1, by omega⟩
    have h1 : (dictGet start B).isSome := by
      have := hpre 0 (by omega)
      simpa using this
    obtain ⟨v, hv⟩ := Option.isSome_iff_exists.mp h1
    have h0' : dictGet (start + 1 + (c : Int)) B = none := by
      rw [show start + 1 + (c : Int) = start + ((c + 1 : Nat) : Int) from by push_cast; ring]
      exact h0
    have hpre' : ∀ j : Nat, j < c → (dictGet (start + 1 + (j : Int)) B).isSome := by
      intro j hj
      rw [show start + 1 + (j : Int) = start + ((j + 1 : Nat) : Int) from by push_cast; ring]
      exact hpre (j + 1) (by omega)
    rw [writeFrom, hv]
    dsimp only
    rw [ih (start + 1) B m h0' hpre' (by omega)]
    conv_rhs => rw [writeFrom, hv]

/- Dispatch facts: which branch of on_packet_received a wire line selects. -/

theorem startsWithL_req_zdLine (iStr pStr : List Char) :
    startsWithL reqChars (zdLine iStr pStr) = false := rfl

theorem startsWithL_zd_zdLine (iStr pStr : List Char) :
    startsWithL zdTag (zdLine iStr pStr) = true := by
  rw [zdLine, List.append_assoc]
  exact startsWithL_append zdTag _

theorem startsWithL_req_reqLine (fname szStr totStr : List Char) :
    startsWithL reqChars (reqLine fname szStr totStr) = true := by
  rw [reqLine, List.append_assoc, List.append_assoc]
  exact startsWithL_append reqChars _

theorem startsWithL_req_goContLine (aStr : List Char) :
    startsWithL reqChars (goContLine aStr) = false := rfl

theorem startsWithL_zd_goContLine (aStr : List Char) :
    startsWithL zdTag (goContLine aStr) = false := rfl

theorem startsWithL_goCont_goContLine (aStr : List Char) :
    startsWithL goContTag (goContLine aStr) = true := startsWithL_append goContTag aStr

theorem goContLine_ne_ack (aStr : List Char) : goContLine aStr ≠ ackChars := by
  intro h
  rw [goContLine, goContTag, ackChars] at h
  simp at h

theorem zdMsg_eq_zdLine (content : List Nat) (index : Nat) :
    zdMsg content index = zdLine (natChars index) (b64EncodeGroups (chunkOf content index)) := rfl

/- Parsing the generic wire lines. -/

theorem splitChar_zdLine (iStr pStr : List Char) (hi : pipe ∉ iStr) (hp : pipe ∉ pStr) :
    splitChar pipe (zdLine iStr pStr) = [['Z', 'D'], iStr, pStr] := by
  have h1 : zdLine iStr pStr = ['Z', 'D'] ++ pipe :: (iStr ++ pipe :: pStr) := by
    simp [zdLine, zdTag, pipe]
  rw [h1, splitChar_append_sep pipe _ _ (by decide), splitChar_append_sep pipe _ _ hi,
    splitChar_no_sep pipe pStr hp]

theorem splitChar_reqLine (fname szStr totStr : List Char) (hf : pipe ∉ fname)
    (hs : pipe ∉ szStr) (ht : pipe ∉ totStr) :
    splitChar pipe (reqLine fname szStr totStr) = [reqChars, fname, szStr, totStr] := by
  have h1 : reqLine fname szStr totStr =
      reqChars ++ pipe :: (fname ++ pipe :: (szStr ++ pipe :: totStr)) := by
    simp [reqLine]
  have h2 : pipe ∉ reqChars := by decide
  rw [h1, splitChar_append_sep pipe _ _ h2, splitChar_append_sep pipe _ _ hf,
    splitChar_append_sep pipe _ _ hs, splitChar_no_sep pipe totStr ht]

theorem splitChar_goContLine (aStr : List Char) (ha : pipe ∉ aStr) :
    splitChar pipe (goContLine aStr) =
      [['M', 'E', 'S', 'H', 'Z', '_', 'G', 'O', 'C', 'O', 'N', 'T'], aStr] := by
  have h1 : goContLine aStr =
      ['M', 'E', 'S', 'H', 'Z', '_', 'G', 'O', 'C', 'O', 'N', 'T'] ++ pipe :: aStr := by
    simp [goContLine, goContTag, pipe]
  rw [h1, splitChar_append_sep pipe _ _ (by decide), splitChar_no_sep pipe aStr ha]

/- Reduction of on_packet_received on each generic wire line. -/

theorem on_packet_zd (st : AppState) (now : Nat) (sender iStr pStr : List Char)
    (i : Int) (p : List Nat) (hi : pipe ∉ iStr) (hp : pipe ∉ pStr)
    (hpy : pyInt iStr = some i) (hdec : b64DecodeGroups pStr = some p) :
    on_packet_received st now sender (zdLine iStr pStr) =
      if (dictLen (dictInsert i p st.receive_buffer) : Int) = st.receiving_total_chunks then
        ({ st with receive_buffer := dictInsert i p st.receive_buffer },
          [Output.progress (dictLen (dictInsert i p st.receive_buffer) : Int)
              st.receiving_total_chunks,
            Output.sendText (goContMsg i) (some sender)] ++
            save_received_file { st with receive_buffer := dictInsert i p st.receive_buffer } ++
            [Output.hideProgress])
      else
        ({ st with receive_buffer := dictInsert i p st.receive_buffer },
          [Output.progress (dictLen (dictInsert i p st.receive_buffer) : Int)
              st.receiving_total_chunks,
            Output.sendText (goContMsg i) (some sender)]) := by
  rw [on_packet_received]
  simp only [startsWithL_req_zdLine, Bool.false_eq_true, if_false,
    startsWithL_zd_zdLine, if_true, splitChar_zdLine iStr pStr hi hp]
  simp only [List.get?, Option.bind, hpy, hdec]

theorem on_packet_req_ok (st : AppState) (now : Nat) (sender fname szStr totStr : List Char)
    (tot : Int) (hf : pipe ∉ fname) (hs : pipe ∉ szStr) (ht : pipe ∉ totStr)
    (hpy : pyInt totStr = some tot) :
    on_packet_received st now sender (reqLine fname szStr totStr) =
      ({ st with
          receiving_file_name := some fname,
          receiving_total_chunks := tot,
          receive_buffer := [] },
        [Output.logReq, Output.progress 0 tot, Output.sendText ackChars (some sender)]) := by
  rw [on_packet_received]
  simp only [startsWithL_req_reqLine, if_true, splitChar_reqLine fname szStr totStr hf hs ht]
  simp only [List.get?, Option.bind, hpy]

theorem on_packet_req_badTotal (st : AppState) (now : Nat)
    (sender fname szStr totStr : List Char)
    (hf : pipe ∉ fname) (hs : pipe ∉ szStr) (ht : pipe ∉ totStr)
    (hpy : pyInt totStr = none) :
    on_packet_received st now sender (reqLine fname szStr totStr) =
      ({ st with receiving_file_name := some fname }, [Output.logPacketError]) := by
  rw [on_packet_received]
  simp only [startsWithL_req_reqLine, if_true, splitChar_reqLine fname szStr totStr hf hs ht]
  simp only [List.get?, Option.bind, hpy]

theorem on_packet_zd_badIndex (st : AppState) (now : Nat) (sender iStr pStr : List Char)
    (hi : pipe ∉ iStr) (hp : pipe ∉ pStr) (hpy : pyInt iStr = none) :
    on_packet_received st now sender (zdLine iStr pStr) =
      (st, [Output.logPacketError]) := by
  rw [on_packet_received]
  simp only [startsWithL_req_zdLine, Bool.false_eq_true, if_false,
    startsWithL_zd_zdLine, if_true, splitChar_zdLine iStr pStr hi hp]
  simp only [List.get?, Option.bind, hpy]

theorem on_packet_ack (st : AppState) (now : Nat) (sender : List Char) :
    on_packet_received st now sender ackChars =
      if st.transfer_active = true ∧ st.target_node_id = some sender then
        ((send_next_chunk
            { st with current_chunk := 1, last_ack_time := now, retry_count := 0 }).1,
          Output.progress 1 (st.total_chunks : Int) ::
            (send_next_chunk
              { st with current_chunk := 1, last_ack_time := now, retry_count := 0 }).2)
      else (st, []) := by
  rw [on_packet_received]
  norm_num [show startsWithL reqChars ackChars = false from rfl,
    show startsWithL zdTag ackChars = false from rfl]

theorem on_packet_goCont_noGuard (st : AppState) (now : Nat) (sender aStr : List Char)
    (hguard : ¬(st.transfer_active = true ∧ st.target_node_id = some sender)) :
    on_packet_received st now sender (goContLine aStr) = (st, []) := by
  rw [on_packet_received]
  simp only [startsWithL_req_goContLine, startsWithL_zd_goContLine, Bool.false_eq_true, if_false,
    goContLine_ne_ack aStr, startsWithL_goCont_goContLine, if_true]
  rw [if_neg hguard]

theorem on_packet_goCont_mismatch (st : AppState) (now : Nat) (sender aStr : List Char)
    (a : Int) (ha : pipe ∉ aStr) (hpy : pyInt aStr = some a)
    (hguard : st.transfer_active = true ∧ st.target_node_id = some sender)
    (hne : a ≠ (st.current_chunk : Int)) :
    on_packet_received st now sender (goContLine aStr) = (st, []) := by
  rw [on_packet_received]
  simp only [startsWithL_req_goContLine, startsWithL_zd_goContLine, Bool.false_eq_true, if_false,
    goContLine_ne_ack aStr, startsWithL_goCont_goContLine, if_true]
  rw [if_pos hguard, splitChar_goContLine aStr ha]
  simp only [List.get?, Option.bind, hpy]
  rw [if_neg hne]

/- Delivering valid chunk lines: effect on state and buffer contents. -/

theorem on_packet_zdMsg_fst (st : AppState) (now : Nat) (sender : List Char) (F : List Nat)
    (i : Nat) (hF : ∀ b ∈ F, b < 256) :
    (on_packet_received st now sender (zdMsg F i)).1 =
      { st with receive_buffer := dictInsert (Int.ofNat i) (chunkOf F i) st.receive_buffer } := by
  rw [zdMsg_eq_zdLine, on_packet_zd st now sender _ _ (Int.ofNat i) (chunkOf F i)
    (pipe_not_mem_natChars i) (pipe_not_mem_b64EncodeGroups _ (chunkOf_mem_lt F i hF))
    (by rw [pyInt_natChars]; rfl) (b64_roundtrip _ (chunkOf_mem_lt F i hF))]
  split <;> rfl

theorem deliverSeq_zdMsgs (F : List Nat) (hF : ∀ b ∈ F, b < 256) (now : Nat)
    (sender : List Char) : ∀ (pre : List Nat) (st : AppState),
    deliverSeq now sender st (pre.map (zdMsg F)) =
      { st with receive_buffer := foldBuf F pre st.receive_buffer } := by
  intro pre
  induction pre with
  | nil => intro st; rfl
  | cons j rest ih =>
    intro st
    rw [List.map_cons, deliverSeq, on_packet_zdMsg_fst st now sender F j hF, ih]
    rfl

theorem foldBuf_get (F : List Nat) : ∀ (order : List Nat) (B : List (Int × List Nat)) (j : Nat),
    dictGet (Int.ofNat j) (foldBuf F order B) =
      if j ∈ order then some (chunkOf F j) else dictGet (Int.ofNat j) B := by
  intro order
  induction order with
  | nil => intro B j; simp [foldBuf]
  | cons o rest ih =>
    intro B j
    have hstep : foldBuf F (o :: rest) B =
        foldBuf F rest (dictInsert (Int.ofNat o) (chunkOf F o) B) := rfl
    rw [hstep, ih]
    by_cases hr : j ∈ rest
    · simp [hr]
    · by_cases ho : j = o
      · subst ho
        simp [hr, dictGet_insert_self]
      · have hne : Int.ofNat j ≠ Int.ofNat o := fun hh => ho (Int.ofNat.inj hh)
        have hmem : j ∉ o :: rest := by simp [List.mem_cons, hr, ho]
        rw [if_neg hr, if_neg hmem]
        exact dictGet_insert_ne _ _ _ _ hne

theorem foldBuf_len (F : List Nat) : ∀ (order : List Nat) (B : List (Int × List Nat)),
    order.Nodup → (∀ j ∈ order, dictGet (Int.ofNat j) B = none) →
    dictLen (foldBuf F order B) = dictLen B + order.length := by
  intro order
  induction order with
  | nil => intro B _ _; simp [foldBuf, dictLen]
  | cons o rest ih =>
    intro B hnd hfresh
    rw [List.nodup_cons] at hnd
    have hstep : foldBuf F (o :: rest) B =
        foldBuf F rest (dictInsert (Int.ofNat o) (chunkOf F o) B) := rfl
    have hfresh2 : ∀ j ∈ rest, dictGet (Int.ofNat j) (dictInsert (Int.ofNat o) (chunkOf F o) B) =
        none := by
      intro j hj
      have hne : Int.ofNat j ≠ Int.ofNat o :=
        fun hh => hnd.1 (Int.ofNat.inj hh ▸ hj)
      rw [dictGet_insert_ne _ _ _ _ hne]
      exact hfresh j (List.mem_cons_of_mem o hj)
    rw [hstep, ih _ hnd.2 hfresh2,
      dictLen_insert_none _ _ _ (hfresh o (List.mem_cons_self o rest))]
    simp [List.length_cons]
    omega

theorem on_packet_zd_completing (st : AppState) (now : Nat) (sender iStr pStr : List Char)
    (i : Int) (p : List Nat) (hi : pipe ∉ iStr) (hp : pipe ∉ pStr)
    (hpy : pyInt iStr = some i) (hdec : b64DecodeGroups pStr = some p)
    (hcond : (dictLen (dictInsert i p st.receive_buffer) : Int) = st.receiving_total_chunks) :
    (on_packet_received st now sender (zdLine iStr pStr)).2 =
      [Output.progress (dictLen (dictInsert i p st.receive_buffer) : Int)
          st.receiving_total_chunks,
        Output.sendText (goContMsg i) (some sender)] ++
        save_received_file { st with receive_buffer := dictInsert i p st.receive_buffer } ++
        [Output.hideProgress] := by
  rw [on_packet_zd st now sender iStr pStr i p hi hp hpy hdec, if_pos hcond]

/-- C2: for every byte sequence F, when the sender emits chunks where chunk i holds bytes
[(i - 1) * C, i * C) of F for i = 1..N (N the chunk count the sender computes, the last chunk
possibly short) and the receiver, primed with that chunk count and an empty buffer, stores those
N chunks in any arrival order, then at the moment the buffer becomes complete the receiver
writes an output file whose bytes equal F exactly, and logs the successful save. -/
theorem claim_C2_roundtrip (F : List Nat) (hF : ∀ b ∈ F, b < 256) (st : AppState) (now : Nat)
    (sender : List Char) (pre : List Nat) (i : Nat)
    (hbuf : st.receive_buffer = [])
    (htot : st.receiving_total_chunks = Int.ofNat (total_chunks_calc F.length))
    (hperm : (pre ++ [i]).Perm (List.range' 1 (total_chunks_calc F.length))) :
    Output.fileWrite (savePathChars st.receiving_file_name) F ∈
      (on_packet_received (deliverSeq now sender st (pre.map (zdMsg F))) now sender
        (zdMsg F i)).2 ∧
    Output.logSaved ∈
      (on_packet_received (deliverSeq now sender st (pre.map (zdMsg F))) now sender
        (zdMsg F i)).2 := by
  have hrange : (List.range' 1 (total_chunks_calc F.length)).Nodup := by
    exact List.nodup_range' 1 (total_chunks_calc F.length)
  have hnodup : (pre ++ [i]).Nodup := hperm.nodup_iff.mpr hrange
  obtain ⟨hndPre, _, hdisj⟩ := List.nodup_append.mp hnodup
  have hiPre : i ∉ pre := fun hmem => hdisj hmem (List.mem_singleton_self i)
  have hchunk : ∀ b ∈ chunkOf F i, b < 256 := chunkOf_mem_lt F i hF
  have hdeliver := deliverSeq_zdMsgs F hF now sender pre st
  rw [hbuf] at hdeliver
  have hgetNone : dictGet (Int.ofNat i) (foldBuf F pre []) = none := by
    rw [foldBuf_get, if_neg hiPre]
    rfl
  have hlenPre : dictLen (foldBuf F pre []) = pre.length := by
    have h := foldBuf_len F pre [] hndPre (fun j _ => rfl)
    simpa [dictLen] using h
  have hlenEq : pre.length + 1 = total_chunks_calc F.length := by
    have h := hperm.length_eq
    simpa [List.length_append, List.length_range'] using h
  have hlen : dictLen (dictInsert (Int.ofNat i) (chunkOf F i) (foldBuf F pre [])) =
      total_chunks_calc F.length := by
    rw [dictLen_insert_none _ _ _ hgetNone, hlenPre, hlenEq]
  have hget : ∀ j ∈ List.range' 1 (total_chunks_calc F.length),
      dictGet (Int.ofNat j) (dictInsert (Int.ofNat i) (chunkOf F i) (foldBuf F pre [])) =
        some (chunkOf F j) := by
    intro j hj
    have hj2 : j ∈ pre ++ [i] := hperm.mem_iff.mpr hj
    by_cases hji : j = i
    · subst hji
      exact dictGet_insert_self _ _ _
    · have hjp : j ∈ pre := by
        rcases List.mem_append.mp hj2 with h | h
        · exact h
        · exact absurd (List.mem_singleton.mp h) hji
      have hne : Int.ofNat j ≠ Int.ofNat i := fun hh => hji (Int.ofNat.inj hh)
      rw [dictGet_insert_ne _ _ _ _ hne, foldBuf_get, if_pos hjp]
  have hwrite : writeFrom (dictInsert (Int.ofNat i) (chunkOf F i) (foldBuf F pre []))
      (Int.ofNat 1) (total_chunks_calc F.length) = (F, true) := by
    rw [writeFrom_complete (total_chunks_calc F.length) 1 _ F hget]
    rw [joinChunks _ F (by
      simp only [total_chunks_calc, CHUNK_SIZE]
      omega)]
  have hsave : save_received_file
      { st with receive_buffer := dictInsert (Int.ofNat i) (chunkOf F i) (foldBuf F pre []) } =
      [Output.fileWrite (savePathChars st.receiving_file_name) F, Output.logSaved] := by
    rw [save_received_file]
    dsimp only
    rw [htot]
    have htn : (Int.ofNat (total_chunks_calc F.length)).toNat = total_chunks_calc F.length := rfl
    rw [htn]
    have hwrite2 : writeFrom (dictInsert (Int.ofNat i) (chunkOf F i) (foldBuf F pre []))
        1 (total_chunks_calc F.length) = (F, true) := hwrite
    rw [hwrite2]
    rfl
  have hcond : (dictLen (dictInsert (Int.ofNat i) (chunkOf F i) (foldBuf F pre [])) : Int) =
      ({ st with receive_buffer := foldBuf F pre [] } : AppState).receiving_total_chunks := by
    dsimp only
    rw [hlen, htot]
    rfl
  have houts := on_packet_zd_completing { st with receive_buffer := foldBuf F pre [] } now sender
    (natChars i) (b64EncodeGroups (chunkOf F i)) (Int.ofNat i) (chunkOf F i)
    (pipe_not_mem_natChars i) (pipe_not_mem_b64EncodeGroups _ hchunk)
    (by rw [pyInt_natChars]; rfl) (b64_roundtrip _ hchunk) hcond
  rw [hdeliver, zdMsg_eq_zdLine, houts]
  dsimp only at hsave ⊢
  rw [hsave]
  constructor
  · simp
  · simp

theorem claim_C2_roundtrip_witness :
    Output.fileWrite (savePathChars stC2w.receiving_file_name) (List.range 121) ∈
      (on_packet_received (deliverSeq 7 ['!', 'a'] stC2w ([2].map (zdMsg (List.range 121)))) 7
        ['!', 'a'] (zdMsg (List.range 121) 1)).2 ∧
    Output.logSaved ∈
      (on_packet_received (deliverSeq 7 ['!', 'a'] stC2w ([2].map (zdMsg (List.range 121)))) 7
        ['!', 'a'] (zdMsg (List.range 121) 1)).2 :=
  claim_C2_roundtrip (List.range 121) (by decide) stC2w 7 ['!', 'a'] [2] 1 rfl (by decide)
    (by decide)

/- Sender side: timeout handling and watchdog iteration. -/

theorem send_next_chunk_file (st : AppState) (f : SelFile) (hfile : st.selected_file = some f) :
    send_next_chunk st =
      (st, [Output.sendText (zdMsg f.content st.current_chunk) st.target_node_id]) := by
  rw [send_next_chunk, hfile]

theorem handle_timeout_retry (st : AppState) (f : SelFile) (hfile : st.selected_file = some f)
    (hlt : st.retry_count < MAX_RETRIES) :
    handle_timeout st =
      ({ st with retry_count := st.retry_count + 1 },
        [Output.logRetry st.current_chunk (st.retry_count + 1),
          Output.sendText (zdMsg f.content st.current_chunk) st.target_node_id]) := by
  rw [handle_timeout, if_pos hlt]
  dsimp only
  rw [send_next_chunk_file { st with retry_count := st.retry_count + 1 } f hfile]

theorem handle_timeout_fail (st : AppState) (hge : ¬st.retry_count < MAX_RETRIES) :
    handle_timeout st =
      ({ st with transfer_active := false }, [Output.logFailed, Output.hideProgress]) := by
  rw [handle_timeout, if_neg hge]

theorem timeoutIter_le (f : SelFile) : ∀ (k : Nat) (st : AppState),
    st.selected_file = some f → k + st.retry_count ≤ MAX_RETRIES →
    timeoutIter k st = { st with retry_count := st.retry_count + k } := by
  intro k
  induction k with
  | zero => intro st _ _; rfl
  | succ k ih =>
    intro st hfile hk
    rw [timeoutIter, handle_timeout_retry st f hfile (by omega)]
    have h2 := ih { st with retry_count := st.retry_count + 1 } hfile (by simp; omega)
    rw [h2]
    have harith : st.retry_count + 1 + k = st.retry_count + (k + 1) := by omega
    simp [harith]

theorem timeoutIter_succ_back : ∀ (k : Nat) (st : AppState),
    timeoutIter (k + 1) st = (handle_timeout (timeoutIter k st)).1 := by
  intro k
  induction k with
  | zero => intro st; rfl
  | succ k ih =>
    intro st
    rw [timeoutIter, ih, timeoutIter]

theorem tickRun_le (f : SelFile) : ∀ (k : Nat) (st : AppState) (t : Nat),
    st.selected_file = some f → st.transfer_active = true → 0 < st.current_chunk →
    TIMEOUT_SECONDS < t - st.last_ack_time → k + st.retry_count ≤ MAX_RETRIES →
    tickRun k st t = { st with retry_count := st.retry_count + k } := by
  intro k
  induction k with
  | zero => intro st t _ _ _ _ _; rfl
  | succ k ih =>
    intro st t hfile hact hcc htime hk
    rw [tickRun, watchdog_tick, if_pos ⟨hact, hcc, htime⟩,
      handle_timeout_retry st f hfile (by omega)]
    have h2 := ih { st with retry_count := st.retry_count + 1 } (t + 1) hfile hact hcc
      (by simp; omega) (by simp; omega)
    rw [h2]
    have harith : st.retry_count + 1 + k = st.retry_count + (k + 1) := by omega
    simp [harith]

theorem tickRun_succ_back : ∀ (k : Nat) (st : AppState) (t : Nat),
    tickRun (k + 1) st t = (watchdog_tick (tickRun k st t) (t + k)).1 := by
  intro k
  induction k with
  | zero => intro st t; rfl
  | succ k ih =>
    intro st t
    rw [tickRun, ih, tickRun]
    have harith : t + 1 + k = t + (k + 1) := by omega
    rw [harith]

/-- C1 counterexample: for a 120 byte file (an exact multiple of the 120 byte chunk size),
initiating the transfer computes totalChunks = 2, while ceil(120 / 120) = 1; the claim that
totalChunks equals ceil(S / C) fails on an exact multiple. -/
theorem claim_C1_counterexample :
    (handle_send_request stC1 50).1.total_chunks = 2 ∧
    stC1file.content.length = 120 ∧
    (120 + CHUNK_SIZE - 1) / CHUNK_SIZE = 1 := by
  decide

/-- C1 (amended): initiating a transfer computes totalChunks = S / C + 1 (floor division plus
one) for file size S and chunk size C = 120; this equals ceil(S / C) exactly when S is not a
multiple of C, and equals S / C + 1 = ceil(S / C) + 1 when S is an exact multiple of C. -/
theorem claim_C1_amended (st : AppState) (now : Nat) (target : List Char) (f : SelFile)
    (htarget : st.target_node_id = some target) (hfile : st.selected_file = some f) :
    (handle_send_request st now).1.total_chunks = f.content.length / CHUNK_SIZE + 1 ∧
    (¬CHUNK_SIZE ∣ f.content.length →
      (handle_send_request st now).1.total_chunks =
        (f.content.length + CHUNK_SIZE - 1) / CHUNK_SIZE) ∧
    (CHUNK_SIZE ∣ f.content.length →
      (handle_send_request st now).1.total_chunks =
        (f.content.length + CHUNK_SIZE - 1) / CHUNK_SIZE + 1) := by
  rw [handle_send_request, htarget, hfile]
  dsimp only
  simp only [total_chunks_calc, CHUNK_SIZE]
  refine ⟨trivial, ?_, ?_⟩ <;> intro h <;> omega

theorem claim_C1_amended_witness :
    (handle_send_request stC1 50).1.total_chunks = stC1file.content.length / CHUNK_SIZE + 1 ∧
    (¬CHUNK_SIZE ∣ stC1file.content.length →
      (handle_send_request stC1 50).1.total_chunks =
        (stC1file.content.length + CHUNK_SIZE - 1) / CHUNK_SIZE) ∧
    (CHUNK_SIZE ∣ stC1file.content.length →
      (handle_send_request stC1 50).1.total_chunks =
        (stC1file.content.length + CHUNK_SIZE - 1) / CHUNK_SIZE + 1) :=
  claim_C1_amended stC1 50 ['!', 'a'] stC1file rfl rfl

/-- C9: when the watchdog timeout fires with retryCount < maxRetries, the handler increments
retryCount, resends the current chunk verbatim (the very line send_next_chunk would emit at the
same state: same index, same payload bytes read from the same file positions), and does not
touch last_ack_time or current_chunk; a watchdog wakeup never changes last_ack_time either, it
is updated only in the acknowledgment branches of on_packet_received. -/
theorem claim_C9_retryResend (st : AppState) (f : SelFile) (now : Nat)
    (hfile : st.selected_file = some f) (hlt : st.retry_count < MAX_RETRIES) :
    handle_timeout st =
      ({ st with retry_count := st.retry_count + 1 },
        [Output.logRetry st.current_chunk (st.retry_count + 1),
          Output.sendText (zdMsg f.content st.current_chunk) st.target_node_id]) ∧
    (handle_timeout st).1.last_ack_time = st.last_ack_time ∧
    (handle_timeout st).1.current_chunk = st.current_chunk ∧
    send_next_chunk st =
      (st, [Output.sendText (zdMsg f.content st.current_chunk) st.target_node_id]) ∧
    (watchdog_tick st now).1.last_ack_time = st.last_ack_time := by
  have hret := handle_timeout_retry st f hfile hlt
  refine ⟨hret, by rw [hret], by rw [hret], send_next_chunk_file st f hfile, ?_⟩
  rw [watchdog_tick]
  split
  · rw [hret]
  · rfl

theorem claim_C9_retryResend_witness :
    handle_timeout stSending =
      ({ stSending with retry_count := stSending.retry_count + 1 },
        [Output.logRetry stSending.current_chunk (stSending.retry_count + 1),
          Output.sendText (zdMsg [9, 8, 7] stSending.current_chunk)
            stSending.target_node_id]) ∧
    (handle_timeout stSending).1.last_ack_time = stSending.last_ack_time ∧
    (handle_timeout stSending).1.current_chunk = stSending.current_chunk ∧
    send_next_chunk stSending =
      (stSending, [Output.sendText (zdMsg [9, 8, 7] stSending.current_chunk)
        stSending.target_node_id]) ∧
    (watchdog_tick stSending 200).1.last_ack_time = stSending.last_ack_time :=
  claim_C9_retryResend stSending ⟨['f'], [9, 8, 7]⟩ 200 rfl (by decide)

/-- C4 counterexample: starting from an active sending session with retryCount = 0, after
exactly maxRetries = 5 consecutive timeout expiries the sender is still active with
retryCount = 5 (it has just sent its fifth retry); it has not transitioned to Failed, so the
claim that the transition happens after exactly maxRetries timeouts fails. -/
theorem claim_C4_counterexample :
    (timeoutIter MAX_RETRIES stC4).transfer_active = true ∧
    (timeoutIter MAX_RETRIES stC4).retry_count = MAX_RETRIES := by
  decide

/-- C4 (amended): for an active sending session with retryCount = 0 that receives no
acknowledgment, each of the first maxRetries = 5 consecutive timeout expiries increments
retryCount and leaves the session active; the transition to Failed (transfer_active = false)
with the failure report and no chunk send happens on the (maxRetries + 1)-th consecutive
timeout expiry, after which a watchdog wakeup is a no-op, so no further chunk is ever sent for
the session. -/
theorem claim_C4_amended (st : AppState) (f : SelFile) (k now : Nat)
    (hfile : st.selected_file = some f) (hretry : st.retry_count = 0)
    (hactive : st.transfer_active = true) (hk : k ≤ MAX_RETRIES) :
    (timeoutIter k st).transfer_active = true ∧
    (timeoutIter k st).retry_count = k ∧
    (timeoutIter (MAX_RETRIES + 1) st).transfer_active = false ∧
    (handle_timeout (timeoutIter MAX_RETRIES st)).2 =
      [Output.logFailed, Output.hideProgress] ∧
    watchdog_tick (timeoutIter (MAX_RETRIES + 1) st) now =
      (timeoutIter (MAX_RETRIES + 1) st, []) := by
  have hiter : ∀ m : Nat, m ≤ MAX_RETRIES → timeoutIter m st = { st with retry_count := m } := by
    intro m hm
    rw [timeoutIter_le f m st hfile (by omega), hretry]
    simp
  have h5 := hiter MAX_RETRIES (by omega)
  have hfail := handle_timeout_fail { st with retry_count := MAX_RETRIES } (by simp)
  have h6 : timeoutIter (MAX_RETRIES + 1) st =
      { st with retry_count := MAX_RETRIES, transfer_active := false } := by
    rw [timeoutIter_succ_back, h5, hfail]
  refine ⟨?_, ?_, ?_, ?_, ?_⟩
  · rw [hiter k hk]
    exact hactive
  · rw [hiter k hk]
  · rw [h6]
  · rw [h5, hfail]
  · rw [h6, watchdog_tick, if_neg (by simp)]

theorem claim_C4_amended_witness :
    (timeoutIter 4 stC4).transfer_active = true ∧
    (timeoutIter 4 stC4).retry_count = 4 ∧
    (timeoutIter (MAX_RETRIES + 1) stC4).transfer_active = false ∧
    (handle_timeout (timeoutIter MAX_RETRIES stC4)).2 =
      [Output.logFailed, Output.hideProgress] ∧
    watchdog_tick (timeoutIter (MAX_RETRIES + 1) stC4) 500 =
      (timeoutIter (MAX_RETRIES + 1) stC4, []) :=
  claim_C4_amended stC4 ⟨['f'], [9, 8, 7]⟩ 4 500 rfl rfl rfl (by decide)

/-- C10: the watchdog ticks once per second and a retry does not reset the last-ack time, so
once the elapsed time since the last acknowledgment exceeds the timeout at some tick, every one
of the following ticks fires another retry: after k consecutive one-second ticks (k up to
maxRetries) the retry count is exactly k with the session still active and the last-ack time
untouched, and the (maxRetries + 1)-th consecutive tick transitions the sender to Failed — the
retries and the failure are one tick (about one second) apart, not one timeout window apart. -/
theorem claim_C10_consecutiveTicks (st : AppState) (f : SelFile) (t k : Nat)
    (hfile : st.selected_file = some f) (hact : st.transfer_active = true)
    (hcc : 0 < st.current_chunk) (hretry : st.retry_count = 0)
    (htime : TIMEOUT_SECONDS < t - st.last_ack_time) (hk : k ≤ MAX_RETRIES) :
    (tickRun k st t).retry_count = k ∧
    (tickRun k st t).transfer_active = true ∧
    (tickRun k st t).last_ack_time = st.last_ack_time ∧
    (tickRun (MAX_RETRIES + 1) st t).transfer_active = false := by
  have hrun : ∀ m : Nat, m ≤ MAX_RETRIES → tickRun m st t = { st with retry_count := m } := by
    intro m hm
    rw [tickRun_le f m st t hfile hact hcc htime (by omega), hretry]
    simp
  have h5 := hrun MAX_RETRIES (by omega)
  have h6 : tickRun (MAX_RETRIES + 1) st t =
      { st with retry_count := MAX_RETRIES, transfer_active := false } := by
    rw [tickRun_succ_back, h5, watchdog_tick,
      if_pos (⟨hact, hcc, by simp; omega⟩ :
        ({ st with retry_count := MAX_RETRIES } : AppState).transfer_active = true ∧
        0 < ({ st with retry_count := MAX_RETRIES } : AppState).current_chunk ∧
        TIMEOUT_SECONDS <
          t + MAX_RETRIES - ({ st with retry_count := MAX_RETRIES } : AppState).last_ack_time),
      handle_timeout_fail _ (by simp)]
  refine ⟨?_, ?_, ?_, ?_⟩
  · rw [hrun k hk]
  · rw [hrun k hk]
    exact hact
  · rw [hrun k hk]
  · rw [h6]

theorem claim_C10_consecutiveTicks_witness :
    (tickRun 5 stC4 131).retry_count = 5 ∧
    (tickRun 5 stC4 131).transfer_active = true ∧
    (tickRun 5 stC4 131).last_ack_time = stC4.last_ack_time ∧
    (tickRun (MAX_RETRIES + 1) stC4 131).transfer_active = false :=
  claim_C10_consecutiveTicks stC4 ⟨['f'], [9, 8, 7]⟩ 131 5 rfl rfl (by decide) rfl (by decide)
    (by decide)

/-- C3 counterexample: in a state that is actively Sending with currentChunk = 3 (not in
RequestSent), a MESHZ_ACK from the selected target is not a no-op: it resets currentChunk to 1
and emits a frame (it resends chunk 1), so the session state changes and output is produced. -/
theorem claim_C3_counterexample :
    (on_packet_received stSending 200 ['!', 'a'] ackChars).1.current_chunk = 1 ∧
    stSending.current_chunk = 3 ∧
    (on_packet_received stSending 200 ['!', 'a'] ackChars).2 ≠ [] := by
  decide

/-- C3 (amended): receipt of MESHZ_ACK is a no-op unless the session is active
(transfer_active) and the frame sender equals the selected target — there is no check that the
session is still in the request phase — and when the session is active with a matching sender,
at any currentChunk, the Ack sets currentChunk to 1, records the ack time, resets retryCount
and (re)sends chunk 1; a chunk acknowledgment changes currentChunk only when it matches the
exact current index (a non-matching MESHZ_GOCONT is a no-op). -/
theorem claim_C3_amended (st : AppState) (now : Nat) (sender aStr : List Char) (f : SelFile)
    (a : Int) (hfile : st.selected_file = some f) (hpipe : pipe ∉ aStr)
    (hpy : pyInt aStr = some a) :
    (¬(st.transfer_active = true ∧ st.target_node_id = some sender) →
      on_packet_received st now sender ackChars = (st, [])) ∧
    (st.transfer_active = true → st.target_node_id = some sender →
      on_packet_received st now sender ackChars =
        ({ st with current_chunk := 1, last_ack_time := now, retry_count := 0 },
          [Output.progress 1 (st.total_chunks : Int),
            Output.sendText (zdMsg f.content 1) (some sender)])) ∧
    (st.transfer_active = true → st.target_node_id = some sender →
      a ≠ (st.current_chunk : Int) →
      on_packet_received st now sender (goContLine aStr) = (st, [])) := by
  refine ⟨?_, ?_, ?_⟩
  · intro hguard
    rw [on_packet_ack, if_neg hguard]
  · intro hact htgt
    rw [on_packet_ack, if_pos ⟨hact, htgt⟩,
      send_next_chunk_file { st with current_chunk := 1, last_ack_time := now, retry_count := 0 }
        f hfile]
    dsimp only
    rw [htgt]
  · intro hact htgt hne
    exact on_packet_goCont_mismatch st now sender aStr a hpipe hpy ⟨hact, htgt⟩ hne

theorem claim_C3_amended_witness :
    (¬(stSending.transfer_active = true ∧ stSending.target_node_id = some ['!', 'a']) →
      on_packet_received stSending 200 ['!', 'a'] ackChars = (stSending, [])) ∧
    (stSending.transfer_active = true → stSending.target_node_id = some ['!', 'a'] →
      on_packet_received stSending 200 ['!', 'a'] ackChars =
        ({ stSending with current_chunk := 1, last_ack_time := 200, retry_count := 0 },
          [Output.progress 1 (stSending.total_chunks : Int),
            Output.sendText (zdMsg [9, 8, 7] 1) (some ['!', 'a'])])) ∧
    (stSending.transfer_active = true → stSending.target_node_id = some ['!', 'a'] →
      (7 : Int) ≠ (stSending.current_chunk : Int) →
      on_packet_received stSending 200 ['!', 'a'] (goContLine ['7']) = (stSending, [])) :=
  claim_C3_amended stSending 200 ['!', 'a'] ['7'] ⟨['f'], [9, 8, 7]⟩ 7 rfl (by decide)
    (by decide)

/-- C5 counterexample: the malformed request line MESHZ_REQ followed by fields ev, 9 and the
non-numeric chunk count x is dropped with a logged Packet Error and no exception, but it does
not leave all session state unchanged: receiving_file_name has already been overwritten from
old to ev when the chunk count parse fails. -/
theorem claim_C5_counterexample :
    (on_packet_received stC5 3 ['!', 'a'] (reqLine ['e', 'v'] ['9'] ['x'])).1.receiving_file_name
      = some ['e', 'v'] ∧
    stC5.receiving_file_name = some ['o', 'l', 'd'] ∧
    (on_packet_received stC5 3 ['!', 'a'] (reqLine ['e', 'v'] ['9'] ['x'])).2 =
      [Output.logPacketError] := by
  decide

/-- C5 (amended): a malformed inbound frame never raises out of the handler: a MESHZ_REQ whose
chunk count field does not parse as an integer, or a ZD line whose index field does not parse,
is dropped with a logged Packet Error; the ZD case leaves all session state unchanged, but the
malformed MESHZ_REQ first overwrites receiving_file_name with the filename field, because that
assignment happens before the failing int() conversion. -/
theorem claim_C5_amended (st : AppState) (now : Nat)
    (sender fname szStr totStr iStr pStr : List Char)
    (hf : pipe ∉ fname) (hs : pipe ∉ szStr) (ht : pipe ∉ totStr) (hpyT : pyInt totStr = none)
    (hi : pipe ∉ iStr) (hp : pipe ∉ pStr) (hpyI : pyInt iStr = none) :
    on_packet_received st now sender (reqLine fname szStr totStr) =
      ({ st with receiving_file_name := some fname }, [Output.logPacketError]) ∧
    on_packet_received st now sender (zdLine iStr pStr) = (st, [Output.logPacketError]) :=
  ⟨on_packet_req_badTotal st now sender fname szStr totStr hf hs ht hpyT,
    on_packet_zd_badIndex st now sender iStr pStr hi hp hpyI⟩

theorem claim_C5_amended_witness :
    on_packet_received stC5 3 ['!', 'a'] (reqLine ['f'] ['9'] ['x']) =
      ({ stC5 with receiving_file_name := some ['f'] }, [Output.logPacketError]) ∧
    on_packet_received stC5 3 ['!', 'a'] (zdLine ['y'] ['A', 'A', '=', '=']) =
      (stC5, [Output.logPacketError]) :=
  claim_C5_amended stC5 3 ['!', 'a'] ['f'] ['9'] ['x'] ['y'] ['A', 'A', '=', '=']
    (by decide) (by decide) (by decide) (by decide) (by decide) (by decide) (by decide)

theorem on_packet_zdLine_fst (st : AppState) (now : Nat) (sender iStr pStr : List Char)
    (i : Int) (p : List Nat) (hi : pipe ∉ iStr) (hp : pipe ∉ pStr)
    (hpy : pyInt iStr = some i) (hdec : b64DecodeGroups pStr = some p) :
    (on_packet_received st now sender (zdLine iStr pStr)).1 =
      { st with receive_buffer := dictInsert i p st.receive_buffer } := by
  rw [on_packet_zd st now sender iStr pStr i p hi hp hpy hdec]
  split <;> rfl

/-- C6 counterexample: the receiver was primed for totalChunks = 2; chunks arrive under indices
5 and 1, so the buffer holds two distinct indices while index 2 in 1..totalChunks is missing;
the completeness check (which only counts entries) fires the save, and the bytes of chunk 1 are
written to the output file before the write aborts on the missing index — bytes are written even
though an index in 1..totalChunks is missing. -/
theorem claim_C6_counterexample :
    Output.fileWrite (savePathChars (some ['g'])) [1] ∈
      (on_packet_received (on_packet_received stC6 1 ['!', 'a']
        (zdLine ['5'] ['A', 'A', '=', '='])).1 2 ['!', 'a']
        (zdLine ['1'] ['A', 'Q', '=', '='])).2 ∧
    dictGet 2 (on_packet_received (on_packet_received stC6 1 ['!', 'a']
        (zdLine ['5'] ['A', 'A', '=', '='])).1 2 ['!', 'a']
        (zdLine ['1'] ['A', 'Q', '=', '='])).1.receive_buffer = none ∧
    Output.logSaveError ∈
      (on_packet_received (on_packet_received stC6 1 ['!', 'a']
        (zdLine ['5'] ['A', 'A', '=', '='])).1 2 ['!', 'a']
        (zdLine ['1'] ['A', 'Q', '=', '='])).2 := by
  decide

/-- C6 (amended): the receiver attempts the output write exactly when the number of distinct
buffered indices equals totalChunks, whether or not those indices are 1..totalChunks: a
delivery that leaves the count different emits only the progress update and the chunk
acknowledgment (no write), and when the write does run with some index in 1..totalChunks
missing, it writes the concatenation of the chunks before the first missing index and then
aborts, so a partial file can be written. -/
theorem claim_C6_amended (st : AppState) (now : Nat) (sender iStr pStr : List Char) (i : Int)
    (p : List Nat) (B : List (Int × List Nat)) (k n : Nat)
    (hi : pipe ∉ iStr) (hp : pipe ∉ pStr) (hpy : pyInt iStr = some i)
    (hdec : b64DecodeGroups pStr = some p)
    (hcount : (dictLen (dictInsert i p st.receive_buffer) : Int) ≠ st.receiving_total_chunks)
    (hk1 : 1 ≤ k) (hkn : k ≤ n) (hmiss : dictGet (k : Int) B = none)
    (hfirst : ∀ j : Nat, 1 ≤ j → j < k → (dictGet (j : Int) B).isSome) :
    (on_packet_received st now sender (zdLine iStr pStr)).2 =
      [Output.progress (dictLen (dictInsert i p st.receive_buffer) : Int)
          st.receiving_total_chunks,
        Output.sendText (goContMsg i) (some sender)] ∧
    writeFrom B 1 n = ((writeFrom B 1 (k - 1)).1, false) := by
  constructor
  · rw [on_packet_zd st now sender iStr pStr i p hi hp hpy hdec, if_neg hcount]
  · have h0 : dictGet ((1 : Int) + ((k - 1 : Nat) : Int)) B = none := by
      rw [show (1 : Int) + ((k - 1 : Nat) : Int) = (k : Int) from by omega]
      exact hmiss
    have hpre : ∀ j : Nat, j < k - 1 → (dictGet ((1 : Int) + (j : Int)) B).isSome := by
      intro j hj
      rw [show (1 : Int) + (j : Int) = ((j + 1 : Nat) : Int) from by omega]
      exact hfirst (j + 1) (by omega) (by omega)
    exact writeFrom_missing (k - 1) 1 B n h0 hpre (by omega)

theorem claim_C6_amended_witness :
    (on_packet_received stC6 1 ['!', 'a'] (zdLine ['3'] ['A', 'A', '=', '='])).2 =
      [Output.progress (dictLen (dictInsert 3 [0] stC6.receive_buffer) : Int)
          stC6.receiving_total_chunks,
        Output.sendText (goContMsg 3) (some ['!', 'a'])] ∧
    writeFrom [((1 : Int), [5]), ((3 : Int), [6])] 1 3 =
      ((writeFrom [((1 : Int), [5]), ((3 : Int), [6])] 1 (2 - 1)).1, false) :=
  claim_C6_amended stC6 1 ['!', 'a'] ['3'] ['A', 'A', '=', '='] 3 [0]
    [((1 : Int), [5]), ((3 : Int), [6])] 2 3 (by decide) (by decide) (by decide) (by decide)
    (by decide) (by decide) (by decide) (by decide) (by decide)

/-- C7 counterexample: the receiver was primed for totalChunks = 1; the single chunk arrives,
the file is materialized successfully (the save is logged), yet the chunk buffer is not
cleared — the ReceiveSession state survives the successful materialization. -/
theorem claim_C7_counterexample :
    Output.logSaved ∈
      (on_packet_received stC7 4 ['!', 'a'] (zdLine ['1'] ['A', 'A', '=', '='])).2 ∧
    (on_packet_received stC7 4 ['!', 'a'] (zdLine ['1'] ['A', 'A', '=', '='])).1.receive_buffer
      ≠ [] := by
  decide

/-- C7 (amended): a ZD delivery changes receiver state only by storing the chunk into the
buffer — on successful materialization (buffer count reaches totalChunks and the write loop
succeeds) the save is logged but no state flag changes and the buffer keeps all its chunks; the
buffer is reset to empty only when a subsequent MESHZ_REQ arrives. -/
theorem claim_C7_amended (st : AppState) (now now2 : Nat)
    (sender sender2 iStr pStr fname szStr totStr : List Char) (i tot : Int) (p : List Nat)
    (hi : pipe ∉ iStr) (hp : pipe ∉ pStr) (hpy : pyInt iStr = some i)
    (hdec : b64DecodeGroups pStr = some p)
    (hf : pipe ∉ fname) (hs : pipe ∉ szStr) (ht : pipe ∉ totStr)
    (hpyT : pyInt totStr = some tot) :
    (on_packet_received st now sender (zdLine iStr pStr)).1 =
      { st with receive_buffer := dictInsert i p st.receive_buffer } ∧
    ((dictLen (dictInsert i p st.receive_buffer) : Int) = st.receiving_total_chunks →
      (writeFrom (dictInsert i p st.receive_buffer) 1 st.receiving_total_chunks.toNat).2 = true →
      Output.logSaved ∈ (on_packet_received st now sender (zdLine iStr pStr)).2) ∧
    (on_packet_received (on_packet_received st now sender (zdLine iStr pStr)).1 now2 sender2
        (reqLine fname szStr totStr)).1.receive_buffer = [] := by
  have hfst := on_packet_zdLine_fst st now sender iStr pStr i p hi hp hpy hdec
  refine ⟨hfst, ?_, ?_⟩
  · intro hcond hsucc
    rw [on_packet_zd_completing st now sender iStr pStr i p hi hp hpy hdec hcond,
      save_received_file]
    dsimp only
    rw [if_pos hsucc]
    simp
  · rw [hfst, on_packet_req_ok _ now2 sender2 fname szStr totStr tot hf hs ht hpyT]

theorem claim_C7_amended_witness :
    (on_packet_received stC7 4 ['!', 'a'] (zdLine ['1'] ['A', 'A', '=', '='])).1 =
      { stC7 with receive_buffer := dictInsert 1 [0] stC7.receive_buffer } ∧
    ((dictLen (dictInsert 1 [0] stC7.receive_buffer) : Int) = stC7.receiving_total_chunks →
      (writeFrom (dictInsert 1 [0] stC7.receive_buffer) 1
        stC7.receiving_total_chunks.toNat).2 = true →
      Output.logSaved ∈ (on_packet_received stC7 4 ['!', 'a'] (zdLine ['1'] ['A', 'A', '=', '='])).2) ∧
    (on_packet_received (on_packet_received stC7 4 ['!', 'a']
        (zdLine ['1'] ['A', 'A', '=', '='])).1 5 ['!', 'b']
        (reqLine ['g'] ['9'] ['1'])).1.receive_buffer = [] :=
  claim_C7_amended stC7 4 5 ['!', 'a'] ['!', 'b'] ['1'] ['A', 'A', '=', '='] ['g'] ['9'] ['1']
    1 1 [0] (by decide) (by decide) (by decide) (by decide) (by decide) (by decide) (by decide)
    (by decide)

/-- C8: delivering the same ZD line twice is idempotent on the receiver buffer: after the first
delivery the entry for the parsed index holds the decoded payload, the second delivery leaves
the whole buffer unchanged (in particular that entry), and a MESHZ_GOCONT acknowledgment for
the index is emitted to the sending peer on each delivery regardless of novelty. -/
theorem claim_C8_idempotent (st : AppState) (now now2 : Nat) (sender iStr pStr : List Char)
    (i : Int) (p : List Nat) (hi : pipe ∉ iStr) (hp : pipe ∉ pStr)
    (hpy : pyInt iStr = some i) (hdec : b64DecodeGroups pStr = some p) :
    dictGet i (on_packet_received st now sender (zdLine iStr pStr)).1.receive_buffer = some p ∧
    (on_packet_received (on_packet_received st now sender (zdLine iStr pStr)).1 now2 sender
        (zdLine iStr pStr)).1.receive_buffer =
      (on_packet_received st now sender (zdLine iStr pStr)).1.receive_buffer ∧
    Output.sendText (goContMsg i) (some sender) ∈
      (on_packet_received st now sender (zdLine iStr pStr)).2 ∧
    Output.sendText (goContMsg i) (some sender) ∈
      (on_packet_received (on_packet_received st now sender (zdLine iStr pStr)).1 now2 sender
        (zdLine iStr pStr)).2 := by
  have h1 := on_packet_zdLine_fst st now sender iStr pStr i p hi hp hpy hdec
  have h2 := on_packet_zdLine_fst { st with receive_buffer := dictInsert i p st.receive_buffer }
    now2 sender iStr pStr i p hi hp hpy hdec
  refine ⟨?_, ?_, ?_, ?_⟩
  · rw [h1]
    exact dictGet_insert_self i p st.receive_buffer
  · rw [h1, h2]
    dsimp only
    rw [dictInsert_idem]
  · rw [on_packet_zd st now sender iStr pStr i p hi hp hpy hdec]
    split <;> simp
  · rw [h1, on_packet_zd _ now2 sender iStr pStr i p hi hp hpy hdec]
    split <;> simp

theorem claim_C8_idempotent_witness :
    dictGet 7 (on_packet_received stC2w 1 ['!', 'a']
      (zdLine ['7'] ['A', 'A', '=', '='])).1.receive_buffer = some [0] ∧
    (on_packet_received (on_packet_received stC2w 1 ['!', 'a']
        (zdLine ['7'] ['A', 'A', '=', '='])).1 2 ['!', 'a']
        (zdLine ['7'] ['A', 'A', '=', '='])).1.receive_buffer =
      (on_packet_received stC2w 1 ['!', 'a'] (zdLine ['7'] ['A', 'A', '=', '='])).1.receive_buffer ∧
    Output.sendText (goContMsg 7) (some ['!', 'a']) ∈
      (on_packet_received stC2w 1 ['!', 'a'] (zdLine ['7'] ['A', 'A', '=', '='])).2 ∧
    Output.sendText (goContMsg 7) (some ['!', 'a']) ∈
      (on_packet_received (on_packet_received stC2w 1 ['!', 'a']
        (zdLine ['7'] ['A', 'A', '=', '='])).1 2 ['!', 'a']
        (zdLine ['7'] ['A', 'A', '=', '='])).2 :=
  claim_C8_idempotent stC2w 1 2 ['!', 'a'] ['7'] ['A', 'A', '=', '='] 7 [0] (by decide)
    (by decide) (by decide) (by decide)
